import Mathlib

/-!
Verification of the memory-management unit allocator of
Assignment-3/code/2021MT60949mmu.h, as a shallow embedding.

Model notes:
- A C size_t value is modeled as a Nat with an explicit % 2 ^ 64
  wherever the C arithmetic can wrap.
- sizeof(block_header_t) is 32 bytes on LP64 targets
  (8 size + 4 is_free + 4 is_mmap + 8 next + 4 magic + 4 padding).
- The singly linked list threaded through the header next pointers is
  modeled as the list of block addresses in chain order; every next
  pointer update in the C code corresponds to the matching list surgery.
- The OS is modeled as a deterministic supplier of fresh, page-aligned,
  zero-filled anonymous mappings (mmap never fails in the model); the
  munmap result is a parameter of the release operation so that failure
  reporting can be stated.
- getpagesize() is modeled as the constant 4096.
-/

namespace MMU

/-- ALIGNMENT constant of the source: 16-byte block alignment. -/
def ALIGNMENT : Nat := 16

/-- MAGIC constant of the source: sentinel validating headers on free. -/
def MAGIC : Nat := 1234567

/-- MMAP_THRESHOLD constant of the source: 8 KiB. -/
def MMAP_THRESHOLD : Nat := 8 * 1024

/-- HEAP_EXPANSION_SIZE constant of the source: 16 * 1024 bytes. -/
def HEAP_EXPANSION_SIZE : Nat := 16 * 1024

/-- Size in bytes of block_header_t on the LP64 target. -/
def HEADER_SIZE : Nat := 32

/-- Page size returned by getpagesize in the model. -/
def PAGE_SIZE : Nat := 4096

/-- Modulus of size_t arithmetic. -/
def WORD : Nat := 2 ^ 64

/-- align_size of the source:
(size + ALIGNMENT - 1) and not (ALIGNMENT - 1), in size_t arithmetic. -/
def align_size (size : Nat) : Nat :=
  ((size + (ALIGNMENT - 1)) % WORD) &&& (WORD - ALIGNMENT)

/-- align_to_page of the source:
((size + page_size - 1) / page_size) * page_size, in size_t arithmetic. -/
def align_to_page (size : Nat) : Nat :=
  ((size + (PAGE_SIZE - 1)) % WORD) / PAGE_SIZE * PAGE_SIZE

/-- Clearing the low four bits of a 64-bit value rounds down to a
multiple of 16. -/
theorem land_mask_eq (x : Nat) : x &&& (WORD - 16) = x % WORD / 16 * 16 := by
  have hmask : WORD - 16 = (2 ^ 60 - 1) <<< 4 := by decide
  have hdiv : x % WORD / 16 * 16 = ((x % WORD) >>> 4) <<< 4 := by
    rw [Nat.shiftRight_eq_div_pow, Nat.shiftLeft_eq]
  rw [hmask, hdiv]
  apply Nat.eq_of_testBit_eq
  intro j
  rw [Nat.testBit_land, Nat.testBit_shiftLeft, Nat.testBit_shiftLeft,
    Nat.testBit_shiftRight, Nat.testBit_two_pow_sub_one]
  rcases lt_or_le j 4 with hj4 | hj4
  · simp [Nat.not_le.mpr hj4]
  · have h1 : 4 + (j - 4) = j := by omega
    rcases lt_or_le j 64 with hj64 | hj64
    · have h2 : j - 4 < 60 := by omega
      rw [h1, show WORD = 2 ^ 64 from rfl, Nat.testBit_mod_two_pow]
      simp [hj4, h2, hj64, Bool.and_comm]
    · have hx : Nat.testBit (x % WORD) j = false := by
        apply Nat.testBit_lt_two_pow
        exact lt_of_lt_of_le (Nat.mod_lt _ (by decide))
          (Nat.pow_le_pow_right (by decide) hj64)
      have h2 : ¬ (j - 4 < 60) := by omega
      rw [h1, hx]
      simp [h2]

/-- align_size in closed arithmetic form. -/
theorem align_size_eq (s : Nat) :
    align_size s = (s + 15) % WORD / 16 * 16 := by
  have h15 : ALIGNMENT - 1 = 15 := by decide
  have h16 : WORD - ALIGNMENT = WORD - 16 := by decide
  rw [align_size, h15, h16, land_mask_eq, Nat.mod_mod_of_dvd _ dvd_rfl]

/-- align_size of an in-range request rounds up to a multiple of 16. -/
theorem align_size_eq_of_lt (s : Nat) (h : s + 15 < WORD) :
    align_size s = (s + 15) / 16 * 16 := by
  rw [align_size_eq, Nat.mod_eq_of_lt h]

/-- align_size output is always a multiple of sixteen. -/
theorem align_size_mod (s : Nat) : align_size s % 16 = 0 := by
  rw [align_size_eq]
  simp [Nat.mul_mod_left]

/-- align_size does not shrink an in-range request. -/
theorem le_align_size (s : Nat) (h : s + 15 < WORD) : s ≤ align_size s := by
  rw [align_size_eq_of_lt s h]
  have h1 := Nat.div_add_mod (s + 15) 16
  have h2 : (s + 15) % 16 < 16 := Nat.mod_lt _ (by decide)
  omega

/-- align_to_page output is always a multiple of the page size. -/
theorem align_to_page_mod (s : Nat) : align_to_page s % PAGE_SIZE = 0 := by
  rw [align_to_page]
  simp [Nat.mul_mod_left]

/-- align_to_page does not shrink an in-range request. -/
theorem le_align_to_page (s : Nat) (h : s + (PAGE_SIZE - 1) < WORD) :
    s ≤ align_to_page s := by
  rw [align_to_page, Nat.mod_eq_of_lt h]
  have h2 : PAGE_SIZE = 4096 := by decide
  rw [h2] at *
  have h1 := Nat.div_add_mod (s + 4095) 4096
  have h3 : (s + 4095) % 4096 < 4096 := Nat.mod_lt _ (by decide)
  omega

/-- block_header_t of the source, minus the next pointer (the next chain
is carried by the freeList field of AllocState). -/
structure Header where
  size : Nat
  is_free : Bool
  is_mmap : Bool
  magic : Nat
deriving Repr, DecidableEq

/-- Default header contents used when reading an address that the model
has never written; reachable executions of the code never depend on it
except when reading a stale header, whose magic must simply differ from
MAGIC, which the zero default guarantees. -/
def junkHeader : Header := ⟨0, false, false, 0⟩

/-- Association list from block addresses to the headers stored there. -/
abbrev HeaderMem := List (Nat × Header)

/-- Reads the header stored at an address. -/
def getHeader (m : HeaderMem) (a : Nat) : Header :=
  match m with
  | [] => junkHeader
  | (b, h) :: rest => if b = a then h else getHeader rest a

/-- Writes the header stored at an address. -/
def setHeader (m : HeaderMem) (a : Nat) (h : Header) : HeaderMem :=
  match m with
  | [] => [(a, h)]
  | (b, hb) :: rest => if b = a then (a, h) :: rest else (b, hb) :: setHeader rest a h

/-- Discards the header stored at an address (memory unmapped). -/
def removeHeader (m : HeaderMem) (a : Nat) : HeaderMem :=
  match m with
  | [] => []
  | (b, hb) :: rest => if b = a then rest else (b, hb) :: removeHeader rest a

/-- The element following the first occurrence of a in the chain:
value of the next field of the node at a. -/
def next_in_list (l : List Nat) (a : Nat) : Option Nat :=
  match l with
  | [] => none
  | b :: rest => if b = a then rest.head? else next_in_list rest a

/-- Inserts x right after the first occurrence of a: the C statements
new_block next := a next; a next := new_block. -/
def insertAfter (l : List Nat) (a x : Nat) : List Nat :=
  match l with
  | [] => []
  | b :: rest => if b = a then b :: x :: rest else b :: insertAfter rest a x

/-- Drops the element right after the first occurrence of a: the C
statement a next := a next next. -/
def removeAfter (l : List Nat) (a : Nat) : List Nat :=
  match l with
  | [] => []
  | b :: rest => if b = a then b :: rest.tail else b :: removeAfter rest a

/-- Overwrites len bytes starting at lo with zero. -/
def zeroRange (f : Nat → Nat) (lo len : Nat) : Nat → Nat :=
  fun a => if lo ≤ a ∧ a < lo + len then 0 else f a

/-- Whole-allocator state: the global variables of the source plus the
memory they manage.  nextMapBase is the model of the OS choosing fresh
page-aligned addresses for anonymous mappings; bytes is payload memory. -/
structure AllocState where
  headers : HeaderMem
  freeList : List Nat
  heapStart : Nat
  heapEnd : Nat
  nextMapBase : Nat
  bytes : Nat → Nat

/-- Initial state: all three globals are NULL (modeled as 0 and the
empty list); the OS will map fresh regions starting at 65536. -/
def initState : AllocState :=
  { headers := [], freeList := [], heapStart := 0, heapEnd := 0,
    nextMapBase := 65536, bytes := fun _ => 0 }

/-- append_block_to_free_list of the source: block next := NULL, then
link block at the tail of the chain. -/
def append_block_to_free_list (s : AllocState) (block : Nat) : AllocState :=
  { s with freeList := s.freeList ++ [block] }

/-- find_prev_block of the source: first node whose next equals block,
or none when block is the head or absent. -/
def find_prev_block (l : List Nat) (block : Nat) : Option Nat :=
  match l with
  | [] => none
  | a :: rest =>
    if rest.head? = some block then some a else find_prev_block rest block

/-- find_free_block of the source: first-fit scan of the chain for a
free block of sufficient size. -/
def find_free_block (s : AllocState) (size : Nat) : Option Nat :=
  s.freeList.find? fun a =>
    (getHeader s.headers a).is_free && size ≤ (getHeader s.headers a).size

/-- split_block of the source: when the block has at least
sizeof(header) + ALIGNMENT spare bytes beyond size, carve a free
remainder block right after the first size payload bytes and link it
directly after the block. -/
def split_block (s : AllocState) (block : Nat) (size : Nat) : AllocState :=
  let min_block_size := HEADER_SIZE + ALIGNMENT
  let b := getHeader s.headers block
  if size + min_block_size ≤ b.size then
    let new_block : Nat := block + HEADER_SIZE + size
    { s with
      headers := setHeader
        (setHeader s.headers new_block ⟨b.size - size - HEADER_SIZE, true, false, MAGIC⟩)
        block ⟨size, b.is_free, b.is_mmap, b.magic⟩,
      freeList := insertAfter s.freeList block new_block }
  else s

/-- merge_with_next_block of the source: absorb the chain successor when
it is free (grow size by header + successor size, unlink successor). -/
def merge_with_next_block (s : AllocState) (block : Nat) : AllocState :=
  match next_in_list s.freeList block with
  | none => s
  | some n =>
    if (getHeader s.headers n).is_free then
      let b := getHeader s.headers block
      { s with
        headers := setHeader s.headers block
          ⟨b.size + HEADER_SIZE + (getHeader s.headers n).size,
           b.is_free, b.is_mmap, b.magic⟩,
        freeList := removeAfter s.freeList block }
    else s

/-- merge_with_prev_block of the source: absorb block into its chain
predecessor when the predecessor is free; returns the address the C
code leaves in *block. -/
def merge_with_prev_block (s : AllocState) (block : Nat) : AllocState × Nat :=
  match find_prev_block s.freeList block with
  | none => (s, block)
  | some p =>
    if (getHeader s.headers p).is_free then
      let hp := getHeader s.headers p
      let hb := getHeader s.headers block
      ({ s with
         headers := setHeader s.headers p
           ⟨hp.size + HEADER_SIZE + hb.size, hp.is_free, hp.is_mmap, hp.magic⟩,
         freeList := removeAfter s.freeList p }, p)
    else (s, block)

/-- merge_adjacent_free_blocks of the source: next first, then prev. -/
def merge_adjacent_free_blocks (s : AllocState) (block : Nat) : AllocState × Nat :=
  merge_with_prev_block (merge_with_next_block s block) block

/-- Arena expansion step of request_new_heap_block: when the current
region is missing or too small, replace it by a fresh
HEAP_EXPANSION_SIZE mapping (the OS model always succeeds). -/
def expand_heap (s : AllocState) (total_size : Nat) : AllocState :=
  if s.heapStart = 0 ∨ s.heapEnd - s.heapStart < total_size then
    { s with
      heapStart := s.nextMapBase,
      heapEnd := s.nextMapBase + HEAP_EXPANSION_SIZE,
      nextMapBase := s.nextMapBase + HEAP_EXPANSION_SIZE,
      bytes := zeroRange s.bytes s.nextMapBase HEAP_EXPANSION_SIZE }
  else s

/-- request_new_heap_block of the source: expand the arena if needed,
carve an allocated block of page-rounded size at the cursor, turn any
leftover arena beyond one header into a free remainder block, append
the remainder (first) and the carved block (second) to the chain. -/
def request_new_heap_block (s : AllocState) (size : Nat) : AllocState × Nat :=
  let total_size := align_to_page (size + HEADER_SIZE)
  let s1 := expand_heap s total_size
  let block : Nat := s1.heapStart
  let s2 := { s1 with
    heapStart := s1.heapStart + total_size,
    headers := setHeader s1.headers block
      ⟨total_size - HEADER_SIZE, false, false, MAGIC⟩ }
  let s3 :=
    if HEADER_SIZE < s2.heapEnd - s2.heapStart then
      let remaining_block : Nat := s2.heapStart
      append_block_to_free_list
        { s2 with
          headers := setHeader s2.headers remaining_block
            ⟨s2.heapEnd - s2.heapStart - HEADER_SIZE, true, false, MAGIC⟩,
          heapStart := s2.heapEnd }
        remaining_block
    else s2
  (append_block_to_free_list s3 block, block)

/-- request_new_mmap_block of the source: a dedicated page-rounded
anonymous mapping holding exactly one allocated block, never linked
into the chain. -/
def request_new_mmap_block (s : AllocState) (size : Nat) : AllocState × Nat :=
  let total_size := align_to_page (size + HEADER_SIZE)
  let block : Nat := s.nextMapBase
  ({ s with
     nextMapBase := s.nextMapBase + total_size,
     bytes := zeroRange s.bytes block total_size,
     headers := setHeader s.headers block
       ⟨total_size - HEADER_SIZE, false, true, MAGIC⟩ }, block)

/-- my_malloc of the source.  The returned address is the payload
pointer (header address + HEADER_SIZE); none models returning NULL. -/
def my_malloc (s : AllocState) (size : Nat) : AllocState × Option Nat :=
  if size = 0 then (s, none)
  else
    let aligned_size := align_size size
    if MMAP_THRESHOLD ≤ aligned_size then
      let (s1, block) := request_new_mmap_block s aligned_size
      (s1, some (block + HEADER_SIZE))
    else
      match find_free_block s aligned_size with
      | some block =>
        let s1 := split_block s block aligned_size
        let b := getHeader s1.headers block
        ({ s1 with
           headers := setHeader s1.headers block ⟨b.size, false, b.is_mmap, MAGIC⟩ },
         some (block + HEADER_SIZE))
      | none =>
        let (s1, block) := request_new_heap_block s aligned_size
        (s1, some (block + HEADER_SIZE))

/-- my_calloc of the source: size_t product with the exact division
overflow test, then my_malloc and memset 0. -/
def my_calloc (s : AllocState) (nelem size : Nat) : AllocState × Option Nat :=
  let total_size := nelem * size % WORD
  if size ≠ 0 ∧ total_size / size ≠ nelem then (s, none)
  else
    match my_malloc s total_size with
    | (s1, some p) =>
      ({ s1 with bytes := zeroRange s1.bytes p total_size }, some p)
    | (s1, none) => (s1, none)

/-- Observable outcome of my_free: which code path ran.  The unmap case
records the address and length handed to munmap and whether the failure
diagnostic (perror) was emitted; freed records the address the block
pointer denotes after coalescing. -/
inductive FreeEvent where
  | nullPtr : FreeEvent
  | invalidFree : FreeEvent
  | unmap (addr len : Nat) (mappingError : Bool) : FreeEvent
  | freed (finalBlock : Nat) : FreeEvent
deriving Repr, DecidableEq

/-- my_free of the source.  unmapOk is the OS munmap result for this
call; on success the unmapped header leaves the model. -/
def my_free (s : AllocState) (unmapOk : Bool) (ptr : Nat) : AllocState × FreeEvent :=
  if ptr = 0 then (s, .nullPtr)
  else
    let block : Nat := ptr - HEADER_SIZE
    let b := getHeader s.headers block
    if b.magic ≠ MAGIC then (s, .invalidFree)
    else if b.is_mmap then
      let total_size := b.size + HEADER_SIZE
      if unmapOk then
        ({ s with headers := removeHeader s.headers block },
         .unmap block total_size false)
      else (s, .unmap block total_size true)
    else
      let s1 := { s with
        headers := setHeader s.headers block ⟨b.size, true, b.is_mmap, 0⟩ }
      let (s2, final) := merge_adjacent_free_blocks s1 block
      (s2, .freed final)

/-- Reading back a header just written. -/
theorem getHeader_setHeader_self (m : HeaderMem) (a : Nat) (h : Header) :
    getHeader (setHeader m a h) a = h := by
  induction m with
  | nil => simp [setHeader, getHeader]
  | cons hd tl ih =>
    by_cases hc : hd.1 = a <;> simp [setHeader, getHeader, hc, ih]

/-- Writing one header leaves the others unchanged. -/
theorem getHeader_setHeader_ne (m : HeaderMem) {a b : Nat} (hne : a ≠ b)
    (h : Header) : getHeader (setHeader m a h) b = getHeader m b := by
  induction m with
  | nil => simp [setHeader, getHeader, hne]
  | cons hd tl ih =>
    by_cases hc : hd.1 = a
    · simp [setHeader, getHeader, hc, hne]
    · simp [setHeader, getHeader, hc, ih]

/-- Reading after a write, combined form. -/
theorem getHeader_setHeader (m : HeaderMem) (a b : Nat) (h : Header) :
    getHeader (setHeader m a h) b = if a = b then h else getHeader m b := by
  by_cases hc : a = b
  · subst hc; simp [getHeader_setHeader_self]
  · simp [hc, getHeader_setHeader_ne m hc h]

/-- Membership after an insertAfter. -/
theorem mem_insertAfter {l : List Nat} {a x y : Nat}
    (h : y ∈ insertAfter l a x) : y ∈ l ∨ y = x := by
  induction l with
  | nil => simp [insertAfter] at h
  | cons b rest ih =>
    by_cases hc : b = a
    · subst hc
      simp [insertAfter] at h
      rcases h with h | h | h
      · exact Or.inl (by simp [h])
      · exact Or.inr h
      · exact Or.inl (by simp [h])
    · simp [insertAfter, hc] at h
      rcases h with h | h
      · exact Or.inl (by simp [h])
      · rcases ih h with h2 | h2
        · exact Or.inl (by simp [h2])
        · exact Or.inr h2

/-- removeAfter only drops elements. -/
theorem removeAfter_sublist (l : List Nat) (a : Nat) :
    (removeAfter l a).Sublist l := by
  induction l with
  | nil => simp [removeAfter]
  | cons b rest ih =>
    by_cases hc : b = a
    · subst hc
      simp only [removeAfter, if_pos rfl]
      exact (List.tail_sublist rest).cons₂ b
    · simp only [removeAfter, if_neg hc]
      exact ih.cons₂ b

/-- removeAfter drops at most one element. -/
theorem length_removeAfter (l : List Nat) (a : Nat) :
    l.length ≤ (removeAfter l a).length + 1 := by
  induction l with
  | nil => simp [removeAfter]
  | cons b rest ih =>
    by_cases hc : b = a
    · simp only [removeAfter, hc, if_pos rfl, List.length_cons]
      cases rest <;> simp
    · simp only [removeAfter, if_neg hc, List.length_cons]
      omega

/-- A first-fit hit is a member of the free list. -/
theorem find_free_block_mem {s : AllocState} {size : Nat} {b : Nat}
    (h : find_free_block s size = some b) : b ∈ s.freeList :=
  List.mem_of_find?_eq_some h

/-- A first-fit hit is free and large enough. -/
theorem find_free_block_spec {s : AllocState} {size : Nat} {b : Nat}
    (h : find_free_block s size = some b) :
    (getHeader s.headers b).is_free = true ∧
    size ≤ (getHeader s.headers b).size := by
  have h2 := List.find?_some h
  simp only [Bool.and_eq_true, decide_eq_true_eq] at h2
  exact h2

/-- C9: my_malloc with size 0 returns NULL and leaves the allocator
state (registry, arena cursor, mappings, memory) exactly as it was. -/
theorem malloc_zero_noop (s : AllocState) : my_malloc s 0 = (s, none) := rfl

/-- C3: from a fresh allocator, allocating 32, 64 and 128 bytes, then
releasing the 64-byte pointer, then allocating 50 bytes returns exactly
the address the 64-byte allocation returned: first-fit reuses the
released 64-byte block, and the call carves no new arena space (free
list, arena cursor and mapping frontier are untouched). -/
theorem first_fit_reuse_scenario :
    (my_malloc initState 32).2 = some 65568 ∧
    ((my_malloc (my_malloc initState 32).1 64).2 = some 69664 ∧
      ((my_malloc (my_malloc (my_malloc initState 32).1 64).1 128).2 = some 69760 ∧
        ((my_free (my_malloc (my_malloc (my_malloc initState 32).1 64).1 128).1
            true 69664).2 = FreeEvent.freed 69632 ∧
          ((my_malloc (my_free (my_malloc (my_malloc (my_malloc initState 32).1
              64).1 128).1 true 69664).1 50).2 = some 69664 ∧
            (my_malloc (my_free (my_malloc (my_malloc (my_malloc initState 32).1
              64).1 128).1 true 69664).1 50).1.freeList
              = (my_free (my_malloc (my_malloc (my_malloc initState 32).1 64).1
                  128).1 true 69664).1.freeList ∧
            (my_malloc (my_free (my_malloc (my_malloc (my_malloc initState 32).1
              64).1 128).1 true 69664).1 50).1.heapStart
              = (my_free (my_malloc (my_malloc (my_malloc initState 32).1 64).1
                  128).1 true 69664).1.heapStart ∧
            (my_malloc (my_free (my_malloc (my_malloc (my_malloc initState 32).1
              64).1 128).1 true 69664).1 50).1.nextMapBase
              = (my_free (my_malloc (my_malloc (my_malloc initState 32).1 64).1
                  128).1 true 69664).1.nextMapBase)))) := by
  decide

/-- expand_heap never touches the free list. -/
theorem expand_heap_freeList (s : AllocState) (t : Nat) :
    (expand_heap s t).freeList = s.freeList := by
  rw [expand_heap]; split <;> rfl

/-- expand_heap never touches the headers. -/
theorem expand_heap_headers (s : AllocState) (t : Nat) :
    (expand_heap s t).headers = s.headers := by
  rw [expand_heap]; split <;> rfl

/-- C8: my_calloc fails exactly on size_t overflow of the element
count times element size product, otherwise returns what my_malloc
returns for the product and hands back memory whose payload bytes all
read as zero.  The state is arbitrary, so the zero guarantee holds even
when the block is recycled dirty memory. -/
theorem calloc_overflow_and_zeroing (s : AllocState) (nelem esize : Nat) :
    (WORD ≤ nelem * esize → (my_calloc s nelem esize).2 = none) ∧
    (nelem * esize < WORD →
      (my_calloc s nelem esize).2 = (my_malloc s (nelem * esize)).2 ∧
      ∀ p, (my_calloc s nelem esize).2 = some p →
        ∀ i, i < nelem * esize → (my_calloc s nelem esize).1.bytes (p + i) = 0) := by
  constructor
  · intro hov
    have he : esize ≠ 0 := by
      rintro rfl
      rw [Nat.mul_zero] at hov
      exact absurd hov (by decide)
    have hmod : nelem * esize % WORD < nelem * esize :=
      lt_of_lt_of_le (Nat.mod_lt _ (by decide)) hov
    have hdiv : nelem * esize % WORD / esize < nelem := by
      rw [Nat.div_lt_iff_lt_mul (Nat.pos_of_ne_zero he)]
      calc nelem * esize % WORD < nelem * esize := hmod
        _ = nelem * esize := rfl
    rw [my_calloc, if_pos ⟨he, Nat.ne_of_lt hdiv⟩]
  · intro hlt
    have htot : nelem * esize % WORD = nelem * esize := Nat.mod_eq_of_lt hlt
    have hcond : ¬ (esize ≠ 0 ∧ nelem * esize % WORD / esize ≠ nelem) := by
      rintro ⟨he, hd⟩
      exact hd (by rw [htot, Nat.mul_div_cancel nelem (Nat.pos_of_ne_zero he)])
    rw [my_calloc, if_neg hcond]
    rcases hmm : my_malloc s (nelem * esize % WORD) with ⟨s1, po⟩
    have hmm2 : my_malloc s (nelem * esize) = (s1, po) := by rw [← htot]; exact hmm
    cases po with
    | none =>
      simp only [hmm, hmm2]
      exact ⟨by trivial, by intro p hp; exact absurd hp (by simp)⟩
    | some q =>
      simp only [hmm, hmm2]
      refine ⟨by trivial, ?_⟩
      intro p hp i hi
      have hpq : p = q := by
        simpa using hp.symm
      subst hpq
      simp only [zeroRange]
      rw [if_pos ⟨Nat.le_add_right p i, by rw [htot]; omega⟩]

/-- C8 witness: a product overflowing size_t is rejected; a 3 times 16
byte request succeeds like my_malloc and its last payload byte is 0. -/
theorem calloc_overflow_and_zeroing_w :
    (WORD ≤ 2 ^ 32 * 2 ^ 32 ∧ (my_calloc initState (2 ^ 32) (2 ^ 32)).2 = none) ∧
    (3 * 16 < WORD ∧ (my_calloc initState 3 16).2 = (my_malloc initState (3 * 16)).2 ∧
      (my_calloc initState 3 16).1.bytes (65568 + 47) = 0) :=
  ⟨⟨by decide, (calloc_overflow_and_zeroing initState (2 ^ 32) (2 ^ 32)).1 (by decide)⟩,
   ⟨by decide, ((calloc_overflow_and_zeroing initState 3 16).2 (by decide)).1,
    ((calloc_overflow_and_zeroing initState 3 16).2 (by decide)).2 65568 (by decide)
      47 (by decide)⟩⟩

/-- C2 counterexample: reachable by allocating 32, then 4016, then
asking for 8176 bytes.  First-fit finds the free block at 73680 whose
size 8208 exceeds the normalized request 8176 by exactly one header
(32 bytes), so the claim demands a split; the code does not split (the
free list is unchanged and the block keeps size 8208 instead of being
resized to 8176 with a remainder linked after it) because its threshold
is header size plus ALIGNMENT, not header size alone. -/
theorem split_threshold_cex :
    align_size 8176 = 8176 ∧
    align_size 8176 < MMAP_THRESHOLD ∧
    find_free_block (my_malloc (my_malloc initState 32).1 4016).1 8176 = some 73680 ∧
    (getHeader (my_malloc (my_malloc initState 32).1 4016).1.headers 73680).size
      = 8176 + HEADER_SIZE ∧
    (my_malloc (my_malloc (my_malloc initState 32).1 4016).1 8176).1.freeList
      = (my_malloc (my_malloc initState 32).1 4016).1.freeList ∧
    (getHeader (my_malloc (my_malloc (my_malloc initState 32).1 4016).1
        8176).1.headers 73680).size = 8176 + HEADER_SIZE := by
  decide

/-- C2 as amended: on a first-fit hit below the threshold the block is
split into an exact-size allocated block and a free remainder linked
right after it precisely when the found size is at least the normalized
request plus one header plus the minimum alignment (so the remainder
has nonzero payload); with smaller excess the whole block is used
unsplit.  Either way the payload pointer of the found block comes back. -/
theorem malloc_split_iff_min_excess (s : AllocState) (size block : Nat)
    (h0 : size ≠ 0) (hsmall : align_size size < MMAP_THRESHOLD)
    (hfind : find_free_block s (align_size size) = some block) :
    (my_malloc s size).2 = some (block + HEADER_SIZE) ∧
    (align_size size + (HEADER_SIZE + ALIGNMENT) ≤ (getHeader s.headers block).size →
      (my_malloc s size).1.freeList
        = insertAfter s.freeList block (block + HEADER_SIZE + align_size size) ∧
      getHeader (my_malloc s size).1.headers block
        = ⟨align_size size, false, (getHeader s.headers block).is_mmap, MAGIC⟩ ∧
      getHeader (my_malloc s size).1.headers (block + HEADER_SIZE + align_size size)
        = ⟨(getHeader s.headers block).size - align_size size - HEADER_SIZE,
           true, false, MAGIC⟩) ∧
    ((getHeader s.headers block).size < align_size size + (HEADER_SIZE + ALIGNMENT) →
      (my_malloc s size).1.freeList = s.freeList ∧
      getHeader (my_malloc s size).1.headers block
        = ⟨(getHeader s.headers block).size, false,
           (getHeader s.headers block).is_mmap, MAGIC⟩) := by
  have hms : ¬ MMAP_THRESHOLD ≤ align_size size := not_le.mpr hsmall
  have hne : ¬ (block + HEADER_SIZE + align_size size = block) := by
    have h32 : (0:Nat) < HEADER_SIZE := by decide
    omega
  have hne2 : ¬ (block = block + HEADER_SIZE + align_size size) := fun h => hne h.symm
  simp only [my_malloc, if_neg h0, if_neg hms, hfind]
  refine ⟨trivial, fun hle => ?_, fun hgt => ?_⟩
  · simp only [split_block, if_pos hle]
    refine ⟨by trivial, ?_, ?_⟩
    · simp [getHeader_setHeader, hne2]
    · simp [getHeader_setHeader, hne, hne2]
  · have hnle : ¬ (align_size size + (HEADER_SIZE + ALIGNMENT)
        ≤ (getHeader s.headers block).size) := not_le.mpr hgt
    simp only [split_block, if_neg hnle]
    exact ⟨by trivial, by simp [getHeader_setHeader]⟩

/-- C2 witness: from the initial state a 64-byte request hits the fresh
12256-byte remainder block at 69632, whose excess is large, so the
split branch of the amended statement fires. -/
theorem malloc_split_iff_min_excess_w :
    ((my_malloc (my_malloc initState 32).1 64).2 = some (69632 + HEADER_SIZE)) ∧
    (my_malloc (my_malloc initState 32).1 64).1.freeList
      = insertAfter (my_malloc initState 32).1.freeList 69632
          (69632 + HEADER_SIZE + align_size 64) := by
  have h := malloc_split_iff_min_excess (my_malloc initState 32).1 64 69632
    (by decide) (by decide) (by decide)
  exact ⟨h.1, (h.2.1 (by decide)).1⟩

/-- C1 counterexample: the very first carve (allocate 32 from a fresh
allocator) registers the free remainder block 69632 before the carved
allocated block 65536, so the carved allocated block does not precede
the remainder in the registry, and the registry is not in carve order
(the block carved first is listed second). -/
theorem carve_append_order_cex :
    (request_new_heap_block initState 32).2 = 65536 ∧
    (request_new_heap_block initState 32).1.freeList = [69632, 65536] ∧
    getHeader (request_new_heap_block initState 32).1.headers 65536
      = ⟨4064, false, false, MAGIC⟩ ∧
    getHeader (request_new_heap_block initState 32).1.headers 69632
      = ⟨12256, true, false, MAGIC⟩ := by
  decide

/-- C1 as amended: whenever a carve creates both an allocated block and
a free remainder, the two are appended at the registry tail with the
free remainder first and the carved allocated block second (the reverse
of carve order), leaving all earlier registry entries in place. -/
theorem carve_appends_remainder_then_block (s : AllocState) (size : Nat)
    (hrange : size + HEADER_SIZE + (PAGE_SIZE - 1) < WORD)
    (hrem : HEADER_SIZE <
      (expand_heap s (align_to_page (size + HEADER_SIZE))).heapEnd
        - ((expand_heap s (align_to_page (size + HEADER_SIZE))).heapStart
            + align_to_page (size + HEADER_SIZE))) :
    (request_new_heap_block s size).2
      = (expand_heap s (align_to_page (size + HEADER_SIZE))).heapStart ∧
    (request_new_heap_block s size).1.freeList
      = s.freeList
        ++ [(expand_heap s (align_to_page (size + HEADER_SIZE))).heapStart
              + align_to_page (size + HEADER_SIZE),
            (expand_heap s (align_to_page (size + HEADER_SIZE))).heapStart] ∧
    getHeader (request_new_heap_block s size).1.headers
        ((expand_heap s (align_to_page (size + HEADER_SIZE))).heapStart)
      = ⟨align_to_page (size + HEADER_SIZE) - HEADER_SIZE, false, false, MAGIC⟩ ∧
    (getHeader (request_new_heap_block s size).1.headers
        ((expand_heap s (align_to_page (size + HEADER_SIZE))).heapStart
          + align_to_page (size + HEADER_SIZE))).is_free = true := by
  have htpos : 0 < align_to_page (size + HEADER_SIZE) := by
    have h32 : (0:Nat) < HEADER_SIZE := by decide
    have := le_align_to_page (size + HEADER_SIZE) (by omega)
    omega
  have hne : ¬ ((expand_heap s (align_to_page (size + HEADER_SIZE))).heapStart
      + align_to_page (size + HEADER_SIZE)
      = (expand_heap s (align_to_page (size + HEADER_SIZE))).heapStart) := by
    intro h
    omega
  simp only [request_new_heap_block, append_block_to_free_list, if_pos hrem]
  refine ⟨trivial, ?_, ?_, ?_⟩
  · rw [expand_heap_freeList, List.append_assoc]
    rfl
  · simp [getHeader_setHeader, hne]
  · simp [getHeader_setHeader]

/-- C1 witness: the first carve from a fresh allocator creates both
blocks, and the amended statement evaluates as stated there. -/
theorem carve_appends_remainder_then_block_w :
    (request_new_heap_block initState 32).2
      = (expand_heap initState (align_to_page (32 + HEADER_SIZE))).heapStart ∧
    (request_new_heap_block initState 32).1.freeList
      = initState.freeList
        ++ [(expand_heap initState (align_to_page (32 + HEADER_SIZE))).heapStart
              + align_to_page (32 + HEADER_SIZE),
            (expand_heap initState (align_to_page (32 + HEADER_SIZE))).heapStart] :=
  ⟨(carve_appends_remainder_then_block initState 32 (by decide) (by decide)).1,
   (carve_appends_remainder_then_block initState 32 (by decide) (by decide)).2.1⟩

/-- C4 failing trace: allocate 8176 (carving block 65536 and remainder
77824 from the arena at 65536..81920), release 65568 (the registry
neighbors are not physically adjacent, yet they are coalesced, inflating
77824 to a claimed 16352 bytes that extend 4096 bytes past the arena
mapping), allocate 4064 (splitting the inflated block writes a block
header at 81920, one byte past the arena mapping, and links it into the
registry), then allocate 8192 (at the threshold, so a dedicated mapping
is created, which the deterministic OS model places at the frontier
81920).  The final state has the registry-linked address 81920 carrying
is_mmap = true, violating the claimed invariant; in the real program
the third call is an out-of-bounds header write past the mapping. -/
theorem mapped_block_linked_into_registry :
    MMAP_THRESHOLD ≤ align_size 8192 ∧
    (my_malloc (my_malloc (my_free (my_malloc initState 8176).1 true
        65568).1 4064).1 8192).2 = some (81920 + HEADER_SIZE) ∧
    81920 ∈ (my_malloc (my_free (my_malloc initState 8176).1 true
        65568).1 4064).1.freeList ∧
    (getHeader (my_malloc (my_free (my_malloc initState 8176).1 true
        65568).1 4064).1.headers 81920).is_mmap = false ∧
    81920 ∈ (my_malloc (my_malloc (my_free (my_malloc initState 8176).1 true
        65568).1 4064).1 8192).1.freeList ∧
    (getHeader (my_malloc (my_malloc (my_free (my_malloc initState 8176).1 true
        65568).1 4064).1 8192).1.headers 81920).is_mmap = true := by
  decide

/-- The address request_new_heap_block hands back is the carve cursor
after any expansion. -/
theorem rnhb_ret (s : AllocState) (size : Nat) :
    (request_new_heap_block s size).2
      = (expand_heap s (align_to_page (size + HEADER_SIZE))).heapStart := rfl

/-- The header request_new_heap_block writes for the carved block. -/
theorem rnhb_header (s : AllocState) (size : Nat)
    (ht : 0 < align_to_page (size + HEADER_SIZE)) :
    getHeader (request_new_heap_block s size).1.headers
        (request_new_heap_block s size).2
      = ⟨align_to_page (size + HEADER_SIZE) - HEADER_SIZE, false, false, MAGIC⟩ := by
  have hne : ¬ ((expand_heap s (align_to_page (size + HEADER_SIZE))).heapStart
      + align_to_page (size + HEADER_SIZE)
      = (expand_heap s (align_to_page (size + HEADER_SIZE))).heapStart) := by
    intro h
    omega
  simp only [request_new_heap_block, append_block_to_free_list]
  split
  · simp [getHeader_setHeader, hne]
  · simp [getHeader_setHeader]

/-- my_malloc with a nonzero in-range request always succeeds in the
model (the OS never refuses a mapping) and hands back the payload
pointer of a freshly tagged allocated block at least as large as the
normalized request. -/
theorem malloc_success (s : AllocState) (sz : Nat) (h0 : sz ≠ 0)
    (hr : align_size sz + HEADER_SIZE + (PAGE_SIZE - 1) < WORD) :
    ∃ q, (my_malloc s sz).2 = some q ∧
      align_size sz ≤ (getHeader (my_malloc s sz).1.headers (q - HEADER_SIZE)).size ∧
      (getHeader (my_malloc s sz).1.headers (q - HEADER_SIZE)).magic = MAGIC ∧
      (getHeader (my_malloc s sz).1.headers (q - HEADER_SIZE)).is_free = false := by
  have hpage : align_size sz + HEADER_SIZE
      ≤ align_to_page (align_size sz + HEADER_SIZE) := by
    apply le_align_to_page
    omega
  by_cases hth : MMAP_THRESHOLD ≤ align_size sz
  · refine ⟨s.nextMapBase + HEADER_SIZE, ?_⟩
    simp only [my_malloc, if_neg h0, if_pos hth, request_new_mmap_block]
    have hq : s.nextMapBase + HEADER_SIZE - HEADER_SIZE = s.nextMapBase := by omega
    rw [hq]
    simp only [getHeader_setHeader_self]
    refine ⟨by trivial, ?_, by trivial, by trivial⟩
    show align_size sz ≤ align_to_page (align_size sz + HEADER_SIZE) - HEADER_SIZE
    omega
  · rcases hfind : find_free_block s (align_size sz) with _ | block
    · rcases hreq : request_new_heap_block s (align_size sz) with ⟨s1, blk⟩
      refine ⟨blk + HEADER_SIZE, ?_⟩
      simp only [my_malloc, if_neg h0, if_neg hth, hfind, hreq]
      have hq : blk + HEADER_SIZE - HEADER_SIZE = blk := by omega
      rw [hq]
      have h32 : (0:Nat) < HEADER_SIZE := by decide
      have hdr := rnhb_header s (align_size sz) (by omega)
      rw [hreq] at hdr
      simp only [hdr]
      refine ⟨by trivial, ?_, by trivial, by trivial⟩
      show align_size sz ≤ align_to_page (align_size sz + HEADER_SIZE) - HEADER_SIZE
      omega
    · have hspec := find_free_block_spec hfind
      have hne : ¬ (block + HEADER_SIZE + align_size sz = block) := by
        have h32 : (0:Nat) < HEADER_SIZE := by decide
        omega
      refine ⟨block + HEADER_SIZE, ?_⟩
      simp only [my_malloc, if_neg h0, if_neg hth, hfind]
      have hq : block + HEADER_SIZE - HEADER_SIZE = block := by omega
      rw [hq]
      by_cases hle : align_size sz + (HEADER_SIZE + ALIGNMENT)
          ≤ (getHeader s.headers block).size
      · simp only [split_block, if_pos hle]
        simp [getHeader_setHeader, hne]
      · simp only [split_block, if_neg hle]
        simp only [getHeader_setHeader_self]
        exact ⟨by trivial, hspec.2, by trivial, by trivial⟩

/-- C7: releasing a mapped block with a valid tag passes the stored
payload size plus the header size to munmap, and for a block created by
request_new_mmap_block this is exactly the page-rounded length of the
original dedicated mapping; the failure diagnostic (MappingError) is
emitted precisely when the OS unmap call fails. -/
theorem mapped_release_exact_length (s : AllocState) (ok : Bool) (ptr : Nat)
    (hp : ptr ≠ 0)
    (hmagic : (getHeader s.headers (ptr - HEADER_SIZE)).magic = MAGIC)
    (hmm : (getHeader s.headers (ptr - HEADER_SIZE)).is_mmap = true) :
    (my_free s ok ptr).2
      = FreeEvent.unmap (ptr - HEADER_SIZE)
          ((getHeader s.headers (ptr - HEADER_SIZE)).size + HEADER_SIZE) (!ok) ∧
    ((my_free s ok ptr).2
        = FreeEvent.unmap (ptr - HEADER_SIZE)
            ((getHeader s.headers (ptr - HEADER_SIZE)).size + HEADER_SIZE) true
      ↔ ok = false) ∧
    ∀ req, req + HEADER_SIZE + (PAGE_SIZE - 1) < WORD →
      (getHeader (request_new_mmap_block s req).1.headers
          (request_new_mmap_block s req).2).size + HEADER_SIZE
        = align_to_page (req + HEADER_SIZE) := by
  have hnm : ¬ ((getHeader s.headers (ptr - HEADER_SIZE)).magic ≠ MAGIC) := by
    simp [hmagic]
  have h1 : (my_free s ok ptr).2
      = FreeEvent.unmap (ptr - HEADER_SIZE)
          ((getHeader s.headers (ptr - HEADER_SIZE)).size + HEADER_SIZE) (!ok) := by
    cases ok <;> simp [my_free, hp, hnm, hmm]
  refine ⟨h1, ?_, ?_⟩
  · rw [h1]
    cases ok <;> simp
  · intro req hreq
    have hle : req + HEADER_SIZE ≤ align_to_page (req + HEADER_SIZE) := by
      apply le_align_to_page
      omega
    simp only [request_new_mmap_block, getHeader_setHeader_self]
    omega

/-- C7 witness: allocating 10000 bytes takes the dedicated-mapping path
and releasing the returned pointer with a failing munmap reports the
error and passes length 12288, the page-rounded mapping size. -/
theorem mapped_release_exact_length_w :
    (getHeader (my_malloc initState 10000).1.headers
        (65568 - HEADER_SIZE)).magic = MAGIC ∧
    (my_free (my_malloc initState 10000).1 false 65568).2
      = FreeEvent.unmap (65568 - HEADER_SIZE)
          ((getHeader (my_malloc initState 10000).1.headers
              (65568 - HEADER_SIZE)).size + HEADER_SIZE) (!false) ∧
    (getHeader (request_new_mmap_block (my_malloc initState 10000).1
        10000).1.headers
        (request_new_mmap_block (my_malloc initState 10000).1 10000).2).size
      + HEADER_SIZE = align_to_page (10000 + HEADER_SIZE) :=
  ⟨by decide,
   (mapped_release_exact_length (my_malloc initState 10000).1 false 65568
     (by decide) (by decide) (by decide)).1,
   (mapped_release_exact_length (my_malloc initState 10000).1 false 65568
     (by decide) (by decide) (by decide)).2.2 10000 (by decide)⟩

/-- The state after my_free marks a block free and clears its tag,
before coalescing. -/
def mark_freed (s : AllocState) (block : Nat) : AllocState :=
  { s with
    headers := setHeader s.headers block
      ⟨(getHeader s.headers block).size, true,
        (getHeader s.headers block).is_mmap, 0⟩ }

/-- The non-mapped valid-tag path of my_free in closed form: mark the
block free with a cleared tag, then coalesce with the chain neighbors. -/
theorem my_free_valid_heap (s : AllocState) (ok : Bool) (ptr : Nat)
    (hp : ptr ≠ 0)
    (hmagic : (getHeader s.headers (ptr - HEADER_SIZE)).magic = MAGIC)
    (hmm : (getHeader s.headers (ptr - HEADER_SIZE)).is_mmap = false) :
    my_free s ok ptr
      = ((merge_adjacent_free_blocks (mark_freed s (ptr - HEADER_SIZE))
            (ptr - HEADER_SIZE)).1,
        FreeEvent.freed (merge_adjacent_free_blocks
            (mark_freed s (ptr - HEADER_SIZE)) (ptr - HEADER_SIZE)).2) := by
  have hnm : ¬ ((getHeader s.headers (ptr - HEADER_SIZE)).magic ≠ MAGIC) := by
    simp [hmagic]
  simp only [my_free, if_neg hp, hnm, ite_false, hmm, Bool.false_eq_true,
    mark_freed]

/-- Coalescing with the chain successor never changes the tag stored at
the freed block itself. -/
theorem magic_after_merge_next (s : AllocState) (block : Nat) :
    (getHeader (merge_with_next_block s block).headers block).magic
      = (getHeader s.headers block).magic := by
  rcases hn : next_in_list s.freeList block with _ | n
  · simp only [merge_with_next_block, hn]
  · simp only [merge_with_next_block, hn]
    split
    · simp [getHeader_setHeader_self]
    · rfl

/-- Coalescing into the chain predecessor never changes the tag stored
at the freed block itself (if the predecessor happens to be the same
address, the tag written back is the one already there). -/
theorem magic_after_merge_prev (s : AllocState) (block : Nat) :
    (getHeader (merge_with_prev_block s block).1.headers block).magic
      = (getHeader s.headers block).magic := by
  rcases hp2 : find_prev_block s.freeList block with _ | p
  · simp only [merge_with_prev_block, hp2]
  · simp only [merge_with_prev_block, hp2]
    split
    · by_cases hpb : p = block
      · subst hpb
        simp [getHeader_setHeader_self]
      · simp [getHeader_setHeader, hpb]
    · rfl

/-- C6: after a first valid release of a non-mapped pointer the stored
tag is cleared; a second release of the same pointer is rejected as an
invalid free and leaves the allocator state completely unchanged; and a
later in-range allocation still succeeds, returning a freshly tagged
allocated block large enough for the request. -/
theorem double_release_rejected (s : AllocState) (ok1 ok2 : Bool) (ptr : Nat)
    (hp : ptr ≠ 0)
    (hmagic : (getHeader s.headers (ptr - HEADER_SIZE)).magic = MAGIC)
    (hmm : (getHeader s.headers (ptr - HEADER_SIZE)).is_mmap = false) :
    (getHeader (my_free s ok1 ptr).1.headers (ptr - HEADER_SIZE)).magic = 0 ∧
    my_free (my_free s ok1 ptr).1 ok2 ptr
      = ((my_free s ok1 ptr).1, FreeEvent.invalidFree) ∧
    ∀ sz, sz ≠ 0 → align_size sz + HEADER_SIZE + (PAGE_SIZE - 1) < WORD →
      ∃ q, (my_malloc (my_free s ok1 ptr).1 sz).2 = some q ∧
        align_size sz
          ≤ (getHeader (my_malloc (my_free s ok1 ptr).1 sz).1.headers
              (q - HEADER_SIZE)).size ∧
        (getHeader (my_malloc (my_free s ok1 ptr).1 sz).1.headers
            (q - HEADER_SIZE)).magic = MAGIC := by
  have hnm : ¬ ((getHeader s.headers (ptr - HEADER_SIZE)).magic ≠ MAGIC) := by
    simp [hmagic]
  have hzero : (getHeader (my_free s ok1 ptr).1.headers (ptr - HEADER_SIZE)).magic
      = 0 := by
    rw [my_free_valid_heap s ok1 ptr hp hmagic hmm]
    simp only [merge_adjacent_free_blocks]
    rw [magic_after_merge_prev, magic_after_merge_next]
    simp [mark_freed, getHeader_setHeader_self]
  refine ⟨hzero, ?_, ?_⟩
  · have hnm2 : (getHeader (my_free s ok1 ptr).1.headers (ptr - HEADER_SIZE)).magic
        ≠ MAGIC := by
      rw [hzero]
      decide
    rw [my_free, if_neg hp, if_pos hnm2]
  · intro sz h0 hr
    rcases malloc_success (my_free s ok1 ptr).1 sz h0 hr with ⟨q, hq1, hq2, hq3, _⟩
    exact ⟨q, hq1, hq2, hq3⟩

/-- C6 witness: allocate 32 from a fresh allocator, release 65568 once;
the tag is cleared, the second release is rejected without a state
change, and a later 32-byte allocation succeeds. -/
theorem double_release_rejected_w :
    (getHeader (my_free (my_malloc initState 32).1 true 65568).1.headers
        (65568 - HEADER_SIZE)).magic = 0 ∧
    my_free (my_free (my_malloc initState 32).1 true 65568).1 true 65568
      = ((my_free (my_malloc initState 32).1 true 65568).1,
         FreeEvent.invalidFree) ∧
    ∃ q, (my_malloc (my_free (my_malloc initState 32).1 true 65568).1 32).2
        = some q ∧
      align_size 32
        ≤ (getHeader (my_malloc (my_free (my_malloc initState 32).1 true
            65568).1 32).1.headers (q - HEADER_SIZE)).size ∧
      (getHeader (my_malloc (my_free (my_malloc initState 32).1 true
          65568).1 32).1.headers (q - HEADER_SIZE)).magic = MAGIC :=
  ⟨(double_release_rejected (my_malloc initState 32).1 true true 65568
      (by decide) (by decide) (by decide)).1,
   (double_release_rejected (my_malloc initState 32).1 true true 65568
      (by decide) (by decide) (by decide)).2.1,
   (double_release_rejected (my_malloc initState 32).1 true true 65568
      (by decide) (by decide) (by decide)).2.2 32 (by decide) (by decide)⟩

/-- The release-and-coalesce transformation exactly as the
specification words it, written out as one straight-line definition:
mark the block free and clear its tag; then, if the registry next
neighbor is free, grow the block size by the neighbor
header-plus-payload size and unlink the neighbor; then, if the registry
predecessor is free, grow the predecessor size by the (possibly already
grown) block header-plus-payload size and unlink the block, the block
reference now denoting the predecessor. -/
def release_spec (s : AllocState) (block : Nat) : AllocState × Nat :=
  let h0 := getHeader s.headers block
  let s0 : AllocState := { s with
    headers := setHeader s.headers block ⟨h0.size, true, h0.is_mmap, 0⟩ }
  let s1 : AllocState :=
    match next_in_list s0.freeList block with
    | none => s0
    | some n =>
      if (getHeader s0.headers n).is_free then
        { s0 with
          headers := setHeader s0.headers block
            ⟨(getHeader s0.headers block).size + HEADER_SIZE
                + (getHeader s0.headers n).size,
              (getHeader s0.headers block).is_free,
              (getHeader s0.headers block).is_mmap,
              (getHeader s0.headers block).magic⟩,
          freeList := removeAfter s0.freeList block }
      else s0
  match find_prev_block s1.freeList block with
  | none => (s1, block)
  | some p =>
    if (getHeader s1.headers p).is_free then
      ({ s1 with
         headers := setHeader s1.headers p
           ⟨(getHeader s1.headers p).size + HEADER_SIZE
               + (getHeader s1.headers block).size,
             (getHeader s1.headers p).is_free,
             (getHeader s1.headers p).is_mmap,
             (getHeader s1.headers p).magic⟩,
         freeList := removeAfter s1.freeList p }, p)
    else (s1, block)

/-- One next-neighbor coalescing step removes at most one chain entry
and keeps the rest in order. -/
theorem merge_next_sub (s : AllocState) (b : Nat) :
    (merge_with_next_block s b).freeList.Sublist s.freeList ∧
    s.freeList.length ≤ (merge_with_next_block s b).freeList.length + 1 := by
  rcases hn : next_in_list s.freeList b with _ | n
  · simp only [merge_with_next_block, hn]
    exact ⟨List.Sublist.refl _, by omega⟩
  · simp only [merge_with_next_block, hn]
    split
    · exact ⟨removeAfter_sublist _ _, length_removeAfter s.freeList b⟩
    · exact ⟨List.Sublist.refl _, by omega⟩

/-- One predecessor coalescing step removes at most one chain entry and
keeps the rest in order. -/
theorem merge_prev_sub (s : AllocState) (b : Nat) :
    (merge_with_prev_block s b).1.freeList.Sublist s.freeList ∧
    s.freeList.length ≤ (merge_with_prev_block s b).1.freeList.length + 1 := by
  rcases hq : find_prev_block s.freeList b with _ | p
  · simp only [merge_with_prev_block, hq]
    exact ⟨List.Sublist.refl _,
      by show s.freeList.length ≤ s.freeList.length + 1; omega⟩
  · simp only [merge_with_prev_block, hq]
    split
    · exact ⟨removeAfter_sublist _ _, length_removeAfter s.freeList p⟩
    · exact ⟨List.Sublist.refl _,
        by show s.freeList.length ≤ s.freeList.length + 1; omega⟩

/-- C5: releasing a non-mapped pointer with a valid tag performs
exactly the claimed sequence (mark free and clear tag; absorb the free
registry next neighbor, growing by header plus payload and unlinking
it; then absorb into the free registry predecessor, growing it by the
grown block header plus payload and unlinking the block), and no
merging beyond these two immediate registry neighbors happens in one
call: the resulting registry is a subsequence of the old one missing at
most two entries. -/
theorem release_coalesce_order (s : AllocState) (ok : Bool) (ptr : Nat)
    (hp : ptr ≠ 0)
    (hmagic : (getHeader s.headers (ptr - HEADER_SIZE)).magic = MAGIC)
    (hmm : (getHeader s.headers (ptr - HEADER_SIZE)).is_mmap = false) :
    my_free s ok ptr
      = ((release_spec s (ptr - HEADER_SIZE)).1,
         FreeEvent.freed (release_spec s (ptr - HEADER_SIZE)).2) ∧
    (my_free s ok ptr).1.freeList.Sublist s.freeList ∧
    s.freeList.length ≤ (my_free s ok ptr).1.freeList.length + 2 := by
  have heq : release_spec s (ptr - HEADER_SIZE)
      = merge_adjacent_free_blocks (mark_freed s (ptr - HEADER_SIZE))
          (ptr - HEADER_SIZE) := rfl
  have hfree := my_free_valid_heap s ok ptr hp hmagic hmm
  have h1 := merge_next_sub (mark_freed s (ptr - HEADER_SIZE)) (ptr - HEADER_SIZE)
  have h2 := merge_prev_sub
    (merge_with_next_block (mark_freed s (ptr - HEADER_SIZE))
      (ptr - HEADER_SIZE)) (ptr - HEADER_SIZE)
  have hmark : (mark_freed s (ptr - HEADER_SIZE)).freeList = s.freeList := rfl
  rw [hmark] at h1
  refine ⟨by rw [hfree, heq], ?_, ?_⟩
  · rw [hfree]
    exact h2.1.trans h1.1
  · rw [hfree]
    have := h1.2
    have := h2.2
    simp only [merge_adjacent_free_blocks]
    omega

/-- C5 witness: a registry of three blocks where the released middle
block has free neighbors on both sides; the release clears the tag,
absorbs the next neighbor, and is itself absorbed into the predecessor,
leaving a single registry entry. -/
theorem release_coalesce_order_w :
    my_free
        { headers := [(100, ⟨16, true, false, MAGIC⟩),
            (148, ⟨16, false, false, MAGIC⟩), (196, ⟨16, true, false, MAGIC⟩)],
          freeList := [100, 148, 196], heapStart := 0, heapEnd := 0,
          nextMapBase := 65536, bytes := fun _ => 0 } true 180
      = ((release_spec
            { headers := [(100, ⟨16, true, false, MAGIC⟩),
                (148, ⟨16, false, false, MAGIC⟩), (196, ⟨16, true, false, MAGIC⟩)],
              freeList := [100, 148, 196], heapStart := 0, heapEnd := 0,
              nextMapBase := 65536, bytes := fun _ => 0 } (180 - HEADER_SIZE)).1,
         FreeEvent.freed (release_spec
            { headers := [(100, ⟨16, true, false, MAGIC⟩),
                (148, ⟨16, false, false, MAGIC⟩), (196, ⟨16, true, false, MAGIC⟩)],
              freeList := [100, 148, 196], heapStart := 0, heapEnd := 0,
              nextMapBase := 65536, bytes := fun _ => 0 } (180 - HEADER_SIZE)).2) ∧
    (my_free
        { headers := [(100, ⟨16, true, false, MAGIC⟩),
            (148, ⟨16, false, false, MAGIC⟩), (196, ⟨16, true, false, MAGIC⟩)],
          freeList := [100, 148, 196], heapStart := 0, heapEnd := 0,
          nextMapBase := 65536, bytes := fun _ => 0 } true 180).1.freeList.Sublist
      [100, 148, 196] :=
  ⟨(release_coalesce_order
      { headers := [(100, ⟨16, true, false, MAGIC⟩),
          (148, ⟨16, false, false, MAGIC⟩), (196, ⟨16, true, false, MAGIC⟩)],
        freeList := [100, 148, 196], heapStart := 0, heapEnd := 0,
        nextMapBase := 65536, bytes := fun _ => 0 } true 180
      (by decide) (by decide) (by decide)).1,
   (release_coalesce_order
      { headers := [(100, ⟨16, true, false, MAGIC⟩),
          (148, ⟨16, false, false, MAGIC⟩), (196, ⟨16, true, false, MAGIC⟩)],
        freeList := [100, 148, 196], heapStart := 0, heapEnd := 0,
        nextMapBase := 65536, bytes := fun _ => 0 } true 180
      (by decide) (by decide) (by decide)).2.1⟩

/-- One external allocator call, or one caller write into payload
memory: the operations the public surface exposes. -/
inductive Step : AllocState → AllocState → Prop where
  | malloc (s : AllocState) (size : Nat) : Step s (my_malloc s size).1
  | calloc (s : AllocState) (nelem esize : Nat) :
      Step s (my_calloc s nelem esize).1
  | free (s : AllocState) (ok : Bool) (ptr : Nat) :
      Step s (my_free s ok ptr).1
  | poke (s : AllocState) (a v : Nat) :
      Step s { s with bytes := fun x => if x = a then v else s.bytes x }

/-- States reachable from the fresh allocator. -/
inductive Reachable : AllocState → Prop where
  | init : Reachable initState
  | step {s t : AllocState} : Reachable s → Step s t → Reachable t

/-- Address alignment facts every operation maintains: every registry
entry is 16-byte aligned, the arena cursor bounds are 16-byte aligned,
and the mapping frontier is page aligned. -/
def AlignedInv (s : AllocState) : Prop :=
  (∀ a ∈ s.freeList, a % 16 = 0) ∧
  s.heapStart % 16 = 0 ∧ s.heapEnd % 16 = 0 ∧ s.nextMapBase % 4096 = 0

/-- Arena expansion preserves the alignment facts. -/
theorem aligned_expand (s : AllocState) (t : Nat) (h : AlignedInv s) :
    AlignedInv (expand_heap s t) := by
  obtain ⟨h1, h2, h3, h4⟩ := h
  have hE : HEAP_EXPANSION_SIZE = 16384 := rfl
  rw [expand_heap]
  split
  · refine ⟨h1, ?_, ?_, ?_⟩
    · show s.nextMapBase % 16 = 0
      omega
    · show (s.nextMapBase + HEAP_EXPANSION_SIZE) % 16 = 0
      omega
    · show (s.nextMapBase + HEAP_EXPANSION_SIZE) % 4096 = 0
      omega
  · exact ⟨h1, h2, h3, h4⟩

/-- The carve cursor after a possible expansion is 16-byte aligned. -/
theorem expand_heapStart_mod (s : AllocState) (t : Nat) (h : AlignedInv s) :
    (expand_heap s t).heapStart % 16 = 0 := by
  have := aligned_expand s t h
  exact this.2.1

/-- Carving a new heap block preserves the alignment facts. -/
theorem aligned_rnhb (s : AllocState) (size : Nat) (h : AlignedInv s) :
    AlignedInv (request_new_heap_block s size).1 := by
  obtain ⟨h1, h2, h3, h4⟩ :=
    aligned_expand s (align_to_page (size + HEADER_SIZE)) h
  have ht : align_to_page (size + HEADER_SIZE) % 4096 = 0 :=
    align_to_page_mod (size + HEADER_SIZE)
  have h32 : HEADER_SIZE = 32 := rfl
  simp only [request_new_heap_block, append_block_to_free_list]
  split
  · refine ⟨?_, h3, h3, h4⟩
    intro x hx
    simp only [List.append_assoc, List.mem_append, List.mem_cons,
      List.not_mem_nil, or_false] at hx
    rcases hx with hx | hx | hx
    · exact h1 x hx
    · subst hx
      show ((expand_heap s (align_to_page (size + HEADER_SIZE))).heapStart
        + align_to_page (size + HEADER_SIZE)) % 16 = 0
      omega
    · subst hx; exact h2
  · refine ⟨?_, ?_, h3, h4⟩
    · intro x hx
      simp only [List.mem_append, List.mem_cons, List.not_mem_nil,
        or_false] at hx
      rcases hx with hx | hx
      · exact h1 x hx
      · subst hx; exact h2
    · show ((expand_heap s (align_to_page (size + HEADER_SIZE))).heapStart
        + align_to_page (size + HEADER_SIZE)) % 16 = 0
      omega

/-- my_malloc preserves the alignment facts. -/
theorem aligned_malloc (s : AllocState) (sz : Nat) (h : AlignedInv s) :
    AlignedInv (my_malloc s sz).1 := by
  by_cases h0 : sz = 0
  · simp only [my_malloc, if_pos h0]
    exact h
  · by_cases hth : MMAP_THRESHOLD ≤ align_size sz
    · simp only [my_malloc, if_neg h0, if_pos hth, request_new_mmap_block]
      obtain ⟨h1, h2, h3, h4⟩ := h
      have ht : align_to_page (align_size sz + HEADER_SIZE) % 4096 = 0 :=
        align_to_page_mod (align_size sz + HEADER_SIZE)
      refine ⟨h1, h2, h3, ?_⟩
      show (s.nextMapBase + align_to_page (align_size sz + HEADER_SIZE))
        % 4096 = 0
      omega
    · rcases hfind : find_free_block s (align_size sz) with _ | block
      · rcases hreq : request_new_heap_block s (align_size sz) with ⟨s1, blk⟩
        simp only [my_malloc, if_neg h0, if_neg hth, hfind, hreq]
        have hal := aligned_rnhb s (align_size sz) h
        rw [hreq] at hal
        exact hal
      · simp only [my_malloc, if_neg h0, if_neg hth, hfind]
        obtain ⟨h1, h2, h3, h4⟩ := h
        have hb : block % 16 = 0 := h1 block (find_free_block_mem hfind)
        have ha : align_size sz % 16 = 0 := align_size_mod sz
        have h32 : HEADER_SIZE = 32 := rfl
        simp only [split_block]
        split
        · refine ⟨?_, h2, h3, h4⟩
          intro x hx
          rcases mem_insertAfter hx with hx | hx
          · exact h1 x hx
          · subst hx; omega
        · exact ⟨h1, h2, h3, h4⟩

/-- Next-neighbor coalescing does not touch the cursor fields. -/
theorem merge_next_fields (s : AllocState) (b : Nat) :
    (merge_with_next_block s b).heapStart = s.heapStart ∧
    (merge_with_next_block s b).heapEnd = s.heapEnd ∧
    (merge_with_next_block s b).nextMapBase = s.nextMapBase := by
  rcases hn : next_in_list s.freeList b with _ | n
  · simp only [merge_with_next_block, hn]
    exact ⟨by trivial, by trivial, by trivial⟩
  · simp only [merge_with_next_block, hn]
    split
    · exact ⟨by trivial, by trivial, by trivial⟩
    · exact ⟨by trivial, by trivial, by trivial⟩

/-- Predecessor coalescing does not touch the cursor fields. -/
theorem merge_prev_fields (s : AllocState) (b : Nat) :
    (merge_with_prev_block s b).1.heapStart = s.heapStart ∧
    (merge_with_prev_block s b).1.heapEnd = s.heapEnd ∧
    (merge_with_prev_block s b).1.nextMapBase = s.nextMapBase := by
  rcases hq : find_prev_block s.freeList b with _ | p
  · simp only [merge_with_prev_block, hq]
    exact ⟨by trivial, by trivial, by trivial⟩
  · simp only [merge_with_prev_block, hq]
    split
    · exact ⟨by trivial, by trivial, by trivial⟩
    · exact ⟨by trivial, by trivial, by trivial⟩

/-- my_free preserves the alignment facts. -/
theorem aligned_free (s : AllocState) (ok : Bool) (ptr : Nat)
    (h : AlignedInv s) : AlignedInv (my_free s ok ptr).1 := by
  by_cases hp : ptr = 0
  · simp only [my_free, if_pos hp]
    exact h
  · by_cases hmg : (getHeader s.headers (ptr - HEADER_SIZE)).magic = MAGIC
    · cases hmm : (getHeader s.headers (ptr - HEADER_SIZE)).is_mmap with
      | true =>
        have hnm : ¬ ((getHeader s.headers (ptr - HEADER_SIZE)).magic
            ≠ MAGIC) := by simp [hmg]
        obtain ⟨h1, h2, h3, h4⟩ := h
        cases ok <;>
          simp only [my_free, if_neg hp, hnm, ite_false, hmm, if_true,
            if_false] <;>
          exact ⟨h1, h2, h3, h4⟩
      | false =>
        rw [my_free_valid_heap s ok ptr hp hmg hmm]
        obtain ⟨h1, h2, h3, h4⟩ := h
        have hsub := (merge_prev_sub
          (merge_with_next_block (mark_freed s (ptr - HEADER_SIZE))
            (ptr - HEADER_SIZE)) (ptr - HEADER_SIZE)).1
        have hsub2 := (merge_next_sub (mark_freed s (ptr - HEADER_SIZE))
          (ptr - HEADER_SIZE)).1
        have hf1 := merge_prev_fields
          (merge_with_next_block (mark_freed s (ptr - HEADER_SIZE))
            (ptr - HEADER_SIZE)) (ptr - HEADER_SIZE)
        have hf2 := merge_next_fields (mark_freed s (ptr - HEADER_SIZE))
          (ptr - HEADER_SIZE)
        simp only [merge_adjacent_free_blocks]
        refine ⟨?_, ?_, ?_, ?_⟩
        · intro x hx
          exact h1 x ((hsub.trans hsub2).mem hx)
        · rw [hf1.1, hf2.1]; exact h2
        · rw [hf1.2.1, hf2.2.1]; exact h3
        · rw [hf1.2.2, hf2.2.2]; exact h4
    · have hnm : (getHeader s.headers (ptr - HEADER_SIZE)).magic ≠ MAGIC := hmg
      simp only [my_free, if_neg hp, if_pos hnm]
      exact h

/-- my_calloc preserves the alignment facts. -/
theorem aligned_calloc (s : AllocState) (nelem esize : Nat)
    (h : AlignedInv s) : AlignedInv (my_calloc s nelem esize).1 := by
  rw [my_calloc]
  split
  · exact h
  · rcases hmm : my_malloc s (nelem * esize % WORD) with ⟨s1, po⟩
    have hal := aligned_malloc s (nelem * esize % WORD) h
    rw [hmm] at hal
    cases po <;> simp only [hmm] <;> exact hal

/-- Every reachable state satisfies the alignment facts. -/
theorem reachable_aligned (s : AllocState) (hs : Reachable s) :
    AlignedInv s := by
  induction hs with
  | init =>
    refine ⟨?_, ?_, ?_, ?_⟩ <;> simp [initState]
  | step _ hstep ih =>
    cases hstep with
    | malloc sz => exact aligned_malloc _ sz ih
    | calloc n e => exact aligned_calloc _ n e ih
    | free ok ptr => exact aligned_free _ ok ptr ih
    | poke a v => exact ih

/-- my_malloc only returns 16-byte aligned payload pointers from an
alignment-respecting state. -/
theorem malloc_ptr_mod (s : AllocState) (sz p : Nat) (h : AlignedInv s)
    (hp : (my_malloc s sz).2 = some p) : p % 16 = 0 := by
  by_cases h0 : sz = 0
  · simp [my_malloc, h0] at hp
  · by_cases hth : MMAP_THRESHOLD ≤ align_size sz
    · simp only [my_malloc, if_neg h0, if_pos hth,
        request_new_mmap_block, Option.some.injEq] at hp
      have h4 := h.2.2.2
      have h32 : HEADER_SIZE = 32 := rfl
      omega
    · rcases hfind : find_free_block s (align_size sz) with _ | block
      · rcases hreq : request_new_heap_block s (align_size sz) with ⟨s1, blk⟩
        simp only [my_malloc, if_neg h0, if_neg hth, hfind, hreq,
          Option.some.injEq] at hp
        have hblk : blk = (expand_heap s (align_to_page
            (align_size sz + HEADER_SIZE))).heapStart := by
          rw [← rnhb_ret s (align_size sz), hreq]
        have hmod := expand_heapStart_mod s
          (align_to_page (align_size sz + HEADER_SIZE)) h
        rw [hblk] at hp
        have h32 : HEADER_SIZE = 32 := rfl
        omega
      · simp only [my_malloc, if_neg h0, if_neg hth, hfind,
          Option.some.injEq] at hp
        have hb : block % 16 = 0 := h.1 block (find_free_block_mem hfind)
        have h32 : HEADER_SIZE = 32 := rfl
        omega

/-- C10: every non-null pointer handed out by my_malloc or my_calloc
from any reachable state is aligned to the 16-byte minimum alignment,
and the header size itself is a multiple of that alignment, so carve,
split and mapping placements all preserve payload alignment. -/
theorem returned_pointers_aligned (s : AllocState) (hs : Reachable s) :
    HEADER_SIZE % ALIGNMENT = 0 ∧
    (∀ size p, (my_malloc s size).2 = some p → p % ALIGNMENT = 0) ∧
    ∀ nelem esize p, (my_calloc s nelem esize).2 = some p
      → p % ALIGNMENT = 0 := by
  have hI := reachable_aligned s hs
  refine ⟨by decide, ?_, ?_⟩
  · intro sz p hp
    exact malloc_ptr_mod s sz p hI hp
  · intro n e p hp
    rw [my_calloc] at hp
    split at hp
    · simp at hp
    · rcases hmm : my_malloc s (n * e % WORD) with ⟨s1, po⟩
      simp only [hmm] at hp
      cases po with
      | none => simp at hp
      | some q =>
        simp only at hp
        have hq : p = q := by simpa using hp.symm
        subst hq
        exact malloc_ptr_mod s (n * e % WORD) p hI (by rw [hmm])

/-- C10 witness: the first pointer a fresh allocator hands out, 65568,
is 16-byte aligned. -/
theorem returned_pointers_aligned_w :
    (my_malloc initState 32).2 = some 65568 ∧ 65568 % ALIGNMENT = 0 :=
  ⟨by decide,
   (returned_pointers_aligned initState Reachable.init).2.1 32 65568
     (by decide)⟩

end MMU
